import Mathlib

/-!
Shallow embedding of the client-side sync core of the `planner-frontend`
repository: the `useSyncNotes` hook (WebSocket message handling, zIndex
normalization, outbound queue, reconnect backoff) and the `App.tsx`
bring-to-front policy (`maxZIndex`, `handleUpdateNote`).

Modelling conventions:
* JS numbers appearing in the claims are all used as integers, so they are
  embedded as `Int`.
* A JS object `Record<string, Note>` is embedded as an insertion-ordered
  association list `List (String × Note)`; object spread `{...prev, [id]: v}`
  replaces in place when the key exists and appends otherwise, and rest
  destructuring removes the key, exactly as `nmInsert` / `nmErase` below.
* A field that may be `undefined`/`null` on the wire is an `Option`; the JS
  null-coalescing operator `??` is `Option.orElse`, and JS string truthiness
  (`if (n.id)`) treats the empty string as absent.
* Serialized outbound payloads (`JSON.stringify` results) are embedded as
  structured `Frame` values; serialization is injective on the frames the
  code produces, so queue length / order / identity facts transfer.
* The single-threaded event-loop model of the source lets each WebSocket
  callback be a pure state-transition function on `SyncState`.
-/

set_option autoImplicit false

namespace PlannerSync

/-- A fully-normalized local note, mirroring the `Note` type of `types.ts`
(field `style` is one tag of a closed palette; we keep it as a string since
no claim depends on the palette). -/
structure Note where
  id : String
  x : Int
  y : Int
  w : Int
  h : Int
  style : String
  header : String
  content : String
  zIndex : Int
  deriving DecidableEq, Repr

/-- A note as it arrives on the wire (`BackendNote`): `id` may be missing or
empty, and the stacking order may arrive as camelCase `zIndex`, as the legacy
snake_case `z_index`, as both, or not at all. -/
structure RawNote where
  id : Option String
  x : Int
  y : Int
  w : Int
  h : Int
  style : String
  header : String
  content : String
  zIndex : Option Int
  z_index : Option Int
  deriving DecidableEq, Repr

/-- JS truthiness test `n.id` used by the message handlers: a present,
non-empty id. -/
def RawNote.hasId (n : RawNote) : Bool :=
  match n.id with
  | some s => !(s == "")
  | none => false

/-- The key under which a raw note is stored (`msg.note.id`); only used when
`hasId` holds. -/
def RawNote.key (n : RawNote) : String := n.id.getD ""

/-- `backendNote.zIndex ?? backendNote.z_index`. -/
def RawNote.backendZIndex (n : RawNote) : Option Int :=
  n.zIndex.orElse fun _ => n.z_index

/-- The local note collection `Record<string, Note>` as an insertion-ordered
association list. -/
abbrev NoteMap := List (String × Note)

/-- Lookup `prev[k]`. -/
def nmFind (m : NoteMap) (k : String) : Option Note :=
  (m.find? fun p => p.1 == k).map fun p => p.2

/-- Object spread `{...prev, [k]: v}`: replace in place if the key exists,
else append. -/
def nmInsert (m : NoteMap) (k : String) (v : Note) : NoteMap :=
  if m.any fun p => p.1 == k then
    m.map fun p => if p.1 == k then (k, v) else p
  else
    m ++ [(k, v)]

/-- Rest destructuring `const { [id]: _, ...rest } = prev`. -/
def nmErase (m : NoteMap) (k : String) : NoteMap :=
  m.filter fun p => !(p.1 == k)

/-- Normalization of one accepted element of an `init` batch at array index
`index` (0-based): `zIndex: backendZIndex ?? index + 1`. -/
def normalizeInitNote (n : RawNote) (index : Nat) : Note :=
  { id := n.key, x := n.x, y := n.y, w := n.w, h := n.h,
    style := n.style, header := n.header, content := n.content,
    zIndex := n.backendZIndex.getD ((index : Int) + 1) }

/-- The `init` reduce: walk the array with its index, skipping falsy elements
(`n &&`) and elements without a truthy id, storing the normalized note under
its id; the accumulator starts empty and replaces the whole collection. -/
def buildInit : List (Option RawNote) → Nat → NoteMap → NoteMap
  | [], _, acc => acc
  | none :: rest, idx, acc => buildInit rest (idx + 1) acc
  | some n :: rest, idx, acc =>
    buildInit rest (idx + 1)
      (if n.hasId then nmInsert acc n.key (normalizeInitNote n idx) else acc)

/-- Handling of an `init` frame: if `msg.notes` is not an array (`none`) the
frame is discarded and the collection is unchanged; otherwise the collection
is replaced by the reduced map. -/
def applyInit : NoteMap → Option (List (Option RawNote)) → NoteMap
  | prev, none => prev
  | _, some l => buildInit l 0 []

/-- zIndex merge of the `update` handler:
`(backendZIndex != null && backendZIndex > 0) ? Math.max(backendZIndex, existingZIndex ?? 0) : (existingZIndex ?? 1)`. -/
def mergeZIndex : Option Int → Option Int → Int
  | some z, existingZIndex =>
    if 0 < z then max z (existingZIndex.getD 0) else existingZIndex.getD 1
  | none, existingZIndex => existingZIndex.getD 1

/-- The record stored by the `update` handler for an accepted note `n` against
the previous collection: camelCase-normalized, zIndex merged against the
stored entity. -/
def normalizeUpdateNote (prev : NoteMap) (n : RawNote) : Note :=
  { id := n.key, x := n.x, y := n.y, w := n.w, h := n.h,
    style := n.style, header := n.header, content := n.content,
    zIndex := mergeZIndex n.backendZIndex ((nmFind prev n.key).map fun o => o.zIndex) }

/-- Handling of an `update` frame: dropped unless the note and a truthy id are
present; otherwise the note is normalized and stored whole under its id. -/
def applyUpdate : NoteMap → Option RawNote → NoteMap
  | prev, none => prev
  | prev, some n =>
    if n.hasId then nmInsert prev n.key (normalizeUpdateNote prev n) else prev

/-- Handling of a `delete` frame: dropped unless a truthy id is present, else
the id is removed (a no-op when absent). -/
def applyDelete : NoteMap → Option String → NoteMap
  | prev, none => prev
  | prev, some i => if i == "" then prev else nmErase prev i

/-- Connection status exposed to the presentation layer
(`'connecting' | 'open' | 'closed'`; `open` is a Lean keyword, so the middle
constructor is spelled `opened`). -/
inductive ConnStatus where
  | connecting
  | opened
  | closed
  deriving DecidableEq, Repr

/-- The `readyState` of the WebSocket held in `socketRef` (CONNECTING, OPEN,
CLOSING, CLOSED). -/
inductive SockState where
  | connecting
  | opened
  | closing
  | closed
  deriving DecidableEq, Repr

/-- An outbound frame; the source queues and sends `JSON.stringify` of exactly
these two shapes. -/
inductive Frame where
  | update (note : Note)
  | delete (id : String)
  deriving DecidableEq, Repr

/-- `MAX_QUEUE_SIZE`. -/
def MAX_QUEUE_SIZE : Nat := 100

/-- `MAX_RECONNECT_ATTEMPTS`. -/
def MAX_RECONNECT_ATTEMPTS : Nat := 10

/-- `INITIAL_RECONNECT_DELAY` (milliseconds). -/
def INITIAL_RECONNECT_DELAY : Int := 1000

/-- The mutable state owned by one `useSyncNotes` instance: the note
collection, the status, the socket (with its readyState) or `none`
(`socketRef.current = null`), the mounted flag, the reconnect-attempt
counter, whether a reconnect timer is pending, the outbound queue, and a
count of `new WebSocket(url)` constructions (two distinct constructions are
two distinct transport sessions, which the abstract socket state alone cannot
distinguish). -/
structure SyncState where
  notes : NoteMap
  status : ConnStatus
  socket : Option SockState
  mounted : Bool
  reconnectAttempts : Nat
  timerPending : Bool
  queue : List Frame
  sessionCount : Nat
  deriving DecidableEq, Repr

/-- `connect()` (non-throwing path): return immediately when unmounted or when
`socketRef.current?.readyState === WebSocket.OPEN`; otherwise set status to
connecting and construct a fresh WebSocket (readyState CONNECTING). -/
def connect (s : SyncState) : SyncState :=
  if s.mounted = false ∨ s.socket = some SockState.opened then s
  else
    { s with status := ConnStatus.connecting,
             socket := some SockState.connecting,
             sessionCount := s.sessionCount + 1 }

/-- The `while (messageQueue.current.length > 0) { shift; send }` loop:
given the queue and the frames sent so far, return (frames sent, final
queue). -/
def flushLoop : List Frame → List Frame → List Frame × List Frame
  | [], sent => (sent, [])
  | m :: rest, sent => flushLoop rest (sent ++ [m])

/-- `ws.onopen`: when unmounted, close the socket and do nothing else;
otherwise the socket is now OPEN, status becomes open, the attempt counter
resets to 0, and the queue is flushed. Returns the new state and the frames
sent. -/
def onOpen (s : SyncState) : SyncState × List Frame :=
  if s.mounted = false then
    ({ s with socket := some SockState.closing }, [])
  else
    let flushed := flushLoop s.queue []
    ({ s with status := ConnStatus.opened,
              socket := some SockState.opened,
              reconnectAttempts := 0,
              queue := flushed.2 }, flushed.1)

/-- `ws.onmessage` on a parsed frame (frames failing the parse or the
discriminant check are `invalid`). -/
inductive WSMessage where
  | init (notes? : Option (List (Option RawNote)))
  | update (note? : Option RawNote)
  | delete (id? : Option String)
  | invalid

/-- `ws.onmessage`: only the note collection can change. -/
def onMessage (s : SyncState) (msg : WSMessage) : SyncState :=
  match msg with
  | WSMessage.init notes? => { s with notes := applyInit s.notes notes? }
  | WSMessage.update note? => { s with notes := applyUpdate s.notes note? }
  | WSMessage.delete id? => { s with notes := applyDelete s.notes id? }
  | WSMessage.invalid => s

/-- The reconnect delay scheduled by `ws.onclose` at a given value of the
attempt counter: `Math.min(INITIAL_RECONNECT_DELAY * Math.pow(2, attempts), 30000)`. -/
def closeDelay (attempts : Nat) : Int :=
  min (INITIAL_RECONNECT_DELAY * 2 ^ attempts) 30000

/-- `ws.onclose`: drop the socket; when still mounted, set status closed and,
only while the attempt counter is below `MAX_RECONNECT_ATTEMPTS`, schedule one
retry. Returns the new state and the scheduled delay, if any. -/
def onClose (s : SyncState) : SyncState × Option Int :=
  if s.mounted = false then ({ s with socket := none }, none)
  else if s.reconnectAttempts < MAX_RECONNECT_ATTEMPTS then
    ({ s with socket := none, status := ConnStatus.closed, timerPending := true },
      some (closeDelay s.reconnectAttempts))
  else
    ({ s with socket := none, status := ConnStatus.closed }, none)

/-- The reconnect timer callback: when still mounted, increment the attempt
counter (the counter moves only here, when a retry actually fires) and call
`connect()`. -/
def retryFire (s : SyncState) : SyncState :=
  if s.mounted = false then { s with timerPending := false }
  else connect { s with timerPending := false,
                        reconnectAttempts := s.reconnectAttempts + 1 }

/-- A run of consecutive session failures: each cycle is one `onClose`
followed, when a retry was scheduled, by the timer firing (`retryFire`) and
the fresh session failing again. `fuel` bounds the number of cycles observed;
the result is the list of scheduled delays in order. -/
def failLoopFuel : Nat → SyncState → List Int
  | 0, _ => []
  | fuel + 1, s =>
    match onClose s with
    | (s1, some d) => d :: failLoopFuel fuel (retryFire s1)
    | (_, none) => []

/-- Enqueueing one payload while no session is open:
`if (length >= MAX_QUEUE_SIZE) shift(); push(payload)`. -/
def enqueue (q : List Frame) (m : Frame) : List Frame :=
  if MAX_QUEUE_SIZE ≤ q.length then q.tail ++ [m] else q ++ [m]

/-- The zIndex persisted by local `upsertNote`:
`note.zIndex != null && note.zIndex > 0 ? note.zIndex : (existingZIndex ?? 1)`
(the local `Note` type always carries a number, so the null test is vacuous). -/
def localFinalZIndex (s : SyncState) (note : Note) : Int :=
  if 0 < note.zIndex then note.zIndex
  else ((nmFind s.notes note.id).map fun o => o.zIndex).getD 1

/-- The record persisted and transmitted by local `upsertNote`
(`noteToSave = { ...note, zIndex: finalZIndex }`). -/
def localFinalNote (s : SyncState) (note : Note) : Note :=
  { note with zIndex := localFinalZIndex s note }

/-- Local `upsertNote`: store `noteToSave`, and send the update frame when the
socket is OPEN, else enqueue it. Returns the new state and the frames sent. -/
def upsertNote (s : SyncState) (note : Note) : SyncState × List Frame :=
  if s.socket = some SockState.opened then
    ({ s with notes := nmInsert s.notes note.id (localFinalNote s note) },
      [Frame.update (localFinalNote s note)])
  else
    ({ s with notes := nmInsert s.notes note.id (localFinalNote s note),
              queue := enqueue s.queue (Frame.update (localFinalNote s note)) }, [])

/-- Local `deleteNote`: remove the id from the collection and unconditionally
send (or enqueue) the delete frame. Returns the new state and the frames
sent. -/
def deleteNote (s : SyncState) (id : String) : SyncState × List Frame :=
  if s.socket = some SockState.opened then
    ({ s with notes := nmErase s.notes id }, [Frame.delete id])
  else
    ({ s with notes := nmErase s.notes id,
              queue := enqueue s.queue (Frame.delete id) }, [])

/-- A local intent as issued by the presentation layer. -/
inductive LocalOp where
  | upsert (n : Note)
  | del (id : String)

/-- Run a sequence of local intents, discarding the sent frames. -/
def runOps (s : SyncState) (ops : List LocalOp) : SyncState :=
  ops.foldl
    (fun st op =>
      match op with
      | LocalOp.upsert n => (upsertNote st n).1
      | LocalOp.del i => (deleteNote st i).1)
    s

/-- `maxZIndex` of `App.tsx`:
`Object.values(notes).reduce((max, n) => Math.max(max, n.zIndex || 0), 0)`.
On integers `n.zIndex || 0` differs from `n.zIndex` only at 0, where both
sides are 0, so it is embedded as `n.zIndex`. -/
def maxZIndex (notes : NoteMap) : Int :=
  notes.foldl (fun mx p => max mx p.2.zIndex) 0

/-- `handleUpdateNote` of `App.tsx`: the note handed to `upsertNote`. -/
def handleUpdateNote (notes : NoteMap) (updatedNote : Note) : Note :=
  if updatedNote.zIndex < maxZIndex notes then
    { updatedNote with zIndex := maxZIndex notes + 1 }
  else updatedNote

/-! ### Concrete sample data for witnesses and counterexamples -/

/-- A concrete local note with a chosen id and zIndex. -/
def sampleNote (i : String) (z : Int) : Note :=
  { id := i, x := 50, y := 50, w := 250, h := 250, style := "yellow",
    header := "New Sticky Note", content := "", zIndex := z }

/-- A fresh hook state as after mount: empty collection, connecting, no
socket yet, empty queue. -/
def baseState : SyncState :=
  { notes := [], status := ConnStatus.connecting, socket := none,
    mounted := true, reconnectAttempts := 0, timerPending := false,
    queue := [], sessionCount := 0 }

/-- A wire note with id `"a"` carrying camelCase zIndex 7. -/
def rawA : RawNote :=
  { id := some "a", x := 1, y := 2, w := 3, h := 4, style := "blue",
    header := "h", content := "c", zIndex := some 7, z_index := none }

/-- A wire note with no id (skipped by `init`). -/
def rawNoId : RawNote :=
  { id := none, x := 0, y := 0, w := 0, h := 0, style := "red",
    header := "", content := "", zIndex := some 5, z_index := none }

/-- A wire note with id `"b"` and no zIndex in either spelling. -/
def rawB : RawNote :=
  { id := some "b", x := 9, y := 9, w := 9, h := 9, style := "green",
    header := "b", content := "", zIndex := none, z_index := none }

/-- A wire note with id `"a"`, camelCase zIndex present but 0, and the legacy
snake_case spelling carrying 7. -/
def rawZeroZ : RawNote :=
  { id := some "a", x := 0, y := 0, w := 1, h := 1, style := "cyan",
    header := "", content := "", zIndex := some 0, z_index := some 7 }

/-- A mounted state whose socket is still CONNECTING. -/
def connectingState : SyncState :=
  { baseState with socket := some SockState.connecting }

/-- A mounted, disconnected state with two queued frames and a stale
reconnect-attempt counter. -/
def queuedState : SyncState :=
  { baseState with queue := [Frame.delete "a", Frame.delete "b"],
                   reconnectAttempts := 3 }

/-- A disconnected state holding the single note `"a"` at zIndex 5. -/
def oneNoteState : SyncState :=
  { baseState with notes := [("a", sampleNote "a" 5)] }

/-- A disconnected state holding notes `"a"` (zIndex 3) and `"b"` (zIndex 5). -/
def twoNoteState : SyncState :=
  { baseState with notes := [("a", sampleNote "a" 3), ("b", sampleNote "b" 5)] }

/-! ### Association-list lemmas -/

theorem find?_insertList_self (m : NoteMap) (k : String) (v : Note)
    (h : (m.any fun p => p.1 == k) = true) :
    List.find? (fun p => p.1 == k) (m.map fun p => if p.1 == k then (k, v) else p)
      = some (k, v) := by
  induction m with
  | nil => simp at h
  | cons p t ih =>
    by_cases hp : p.1 = k
    · rw [List.map_cons, if_pos (by simpa using hp), List.find?_cons_of_pos]
      simp
    · have hbp : (p.1 == k) = false := by simpa using hp
      have ht : (t.any fun q => q.1 == k) = true := by
        simpa [List.any_cons, hbp] using h
      rw [List.map_cons, if_neg (by simp [hbp]), List.find?_cons_of_neg _ (by simp [hbp])]
      exact ih ht

theorem nmFind_insert_self (m : NoteMap) (k : String) (v : Note) :
    nmFind (nmInsert m k v) k = some v := by
  unfold nmInsert nmFind
  by_cases h : (m.any fun p => p.1 == k) = true
  · rw [if_pos h, find?_insertList_self m k v h]
    rfl
  · rw [if_neg h, List.find?_append]
    have hm : List.find? (fun p => p.1 == k) m = none := by
      rw [List.find?_eq_none]
      intro p hp hc
      exact h (List.any_eq_true.mpr ⟨p, hp, hc⟩)
    rw [hm, List.find?_cons_of_pos _ (by simp)]
    rfl

theorem nmFind_insert_ne (m : NoteMap) (k k' : String) (v : Note) (hne : k' ≠ k) :
    nmFind (nmInsert m k v) k' = nmFind m k' := by
  unfold nmInsert nmFind
  by_cases h : (m.any fun p => p.1 == k) = true
  · rw [if_pos h]
    clear h
    induction m with
    | nil => rfl
    | cons p t ih =>
      by_cases hp : p.1 = k
      · have hnew : ((k, v).1 == k') = false := by
          simp only [beq_eq_false_iff_ne, ne_eq]
          exact fun e => hne e.symm
        have hold : (p.1 == k') = false := by
          simp only [beq_eq_false_iff_ne, ne_eq, hp]
          exact fun e => hne e.symm
        rw [List.map_cons, if_pos (by simpa using hp),
          List.find?_cons_of_neg _ (by simp [hnew]),
          List.find?_cons_of_neg _ (by simp [hold])]
        exact ih
      · have hbp : (p.1 == k) = false := by simpa using hp
        rw [List.map_cons, if_neg (by simp [hbp])]
        by_cases hq : p.1 = k'
        · rw [List.find?_cons_of_pos _ (by simpa using hq),
            List.find?_cons_of_pos _ (by simpa using hq)]
        · rw [List.find?_cons_of_neg _ (by simpa using hq),
            List.find?_cons_of_neg _ (by simpa using hq)]
          exact ih
  · rw [if_neg h, List.find?_append]
    have hnew : ((k, v).1 == k') = false := by
      simp only [beq_eq_false_iff_ne, ne_eq]
      exact fun e => hne e.symm
    rw [List.find?_cons_of_neg _ (by simp [hnew]), List.find?_nil]
    cases hf : List.find? (fun p => p.1 == k') m <;> rfl

theorem nmErase_of_find_none (m : NoteMap) (k : String) (h : nmFind m k = none) :
    nmErase m k = m := by
  unfold nmFind at h
  rw [Option.map_eq_none'] at h
  rw [List.find?_eq_none] at h
  unfold nmErase
  rw [List.filter_eq_self]
  intro p hp
  simpa using h p hp

theorem nmFind_mem (m : NoteMap) (k : String) (v : Note) (h : nmFind m k = some v) :
    (k, v) ∈ m := by
  unfold nmFind at h
  rw [Option.map_eq_some'] at h
  obtain ⟨p, hp, hv⟩ := h
  have hmem := List.mem_of_find?_eq_some hp
  have hkey := List.find?_some hp
  have : p.1 = k := by simpa using hkey
  have : p = (k, v) := by
    cases p
    simp_all
  rwa [this] at hmem

/-! ### maxZIndex lemmas -/

theorem le_foldl_max (l : List (String × Note)) (a : Int) :
    a ≤ l.foldl (fun mx p => max mx p.2.zIndex) a := by
  induction l generalizing a with
  | nil => simp
  | cons p t ih =>
    rw [List.foldl_cons]
    exact le_trans (le_max_left a p.2.zIndex) (ih (max a p.2.zIndex))

theorem zIndex_le_foldl_max (l : List (String × Note)) (a : Int) (p : String × Note)
    (hp : p ∈ l) : p.2.zIndex ≤ l.foldl (fun mx q => max mx q.2.zIndex) a := by
  induction l generalizing a with
  | nil => simp at hp
  | cons q t ih =>
    rw [List.foldl_cons]
    rcases List.mem_cons.mp hp with h | h
    · subst h
      exact le_trans (le_max_right a p.2.zIndex) (le_foldl_max t _)
    · exact ih _ h

theorem maxZIndex_nonneg (m : NoteMap) : 0 ≤ maxZIndex m :=
  le_foldl_max m 0

theorem zIndex_le_maxZIndex (m : NoteMap) (k : String) (v : Note)
    (h : nmFind m k = some v) : v.zIndex ≤ maxZIndex m :=
  zIndex_le_foldl_max m 0 (k, v) (nmFind_mem m k v h)

/-! ### Queue lemmas -/

theorem flushLoop_spec (q sent : List Frame) : flushLoop q sent = (sent ++ q, []) := by
  induction q generalizing sent with
  | nil => simp [flushLoop]
  | cons m rest ih =>
    rw [flushLoop, ih]
    simp

theorem enqueue_length_le (q : List Frame) (m : Frame) (h : q.length ≤ 100) :
    (enqueue q m).length ≤ 100 := by
  unfold enqueue MAX_QUEUE_SIZE
  split
  · simp only [List.length_append, List.length_tail, List.length_cons, List.length_nil]
    omega
  · simp only [List.length_append, List.length_cons, List.length_nil]
    omega

theorem enqueue_full (q : List Frame) (m : Frame) (h : q.length = 100) :
    enqueue q m = q.tail ++ [m] := by
  unfold enqueue MAX_QUEUE_SIZE
  rw [if_pos (by omega)]

theorem foldl_enqueue_eq (msgs : List Frame) (q : List Frame) (h : q.length ≤ 100) :
    msgs.foldl enqueue q = (q ++ msgs).drop (q.length + msgs.length - 100) := by
  induction msgs generalizing q with
  | nil =>
    simp only [List.foldl_nil, List.append_nil, List.length_nil]
    rw [show q.length + 0 - 100 = 0 by omega, List.drop_zero]
  | cons x msgs ih =>
    rw [List.foldl_cons]
    by_cases hq : 100 ≤ q.length
    · have hq100 : q.length = 100 := by omega
      have he : enqueue q x = q.tail ++ [x] := enqueue_full q x hq100
      have hlen : (enqueue q x).length = 100 := by
        rw [he]
        simp only [List.length_append, List.length_tail, List.length_cons, List.length_nil]
        omega
      rw [ih (enqueue q x) (by omega), hlen, he]
      have htail : q.tail ++ [x] ++ msgs = (q ++ x :: msgs).drop 1 := by
        rw [← List.drop_one, List.append_assoc,
          ← List.drop_append_of_le_length (by omega)]
        rfl
      rw [htail, List.drop_drop]
      congr 1
      simp only [List.length_cons]
      omega
    · have he : enqueue q x = q ++ [x] := by
        unfold enqueue MAX_QUEUE_SIZE
        rw [if_neg (by omega)]
      have hlen : (enqueue q x).length = q.length + 1 := by
        rw [he]
        simp
      rw [ih (enqueue q x) (by omega), hlen, he, List.append_assoc]
      have hx : [x] ++ msgs = x :: msgs := rfl
      rw [hx]
      congr 1
      simp only [List.length_cons]
      omega

theorem foldl_enqueue_drop (msgs : List Frame) :
    msgs.foldl enqueue [] = msgs.drop (msgs.length - 100) := by
  have := foldl_enqueue_eq msgs [] (by simp)
  simpa using this

/-! ### Connection lemmas -/

theorem connect_mounted (s : SyncState) : (connect s).mounted = s.mounted := by
  unfold connect
  split <;> rfl

theorem connect_attempts (s : SyncState) :
    (connect s).reconnectAttempts = s.reconnectAttempts := by
  unfold connect
  split <;> rfl

theorem retryFire_mounted (s : SyncState) : (retryFire s).mounted = s.mounted := by
  unfold retryFire
  split
  · rfl
  · rw [connect_mounted]

theorem retryFire_attempts (s : SyncState) (h : s.mounted = true) :
    (retryFire s).reconnectAttempts = s.reconnectAttempts + 1 := by
  unfold retryFire
  rw [if_neg (by simp [h]), connect_attempts]

theorem failLoopFuel_succ_some (fuel : Nat) (s s1 : SyncState) (d : Int)
    (h : onClose s = (s1, some d)) :
    failLoopFuel (fuel + 1) s = d :: failLoopFuel fuel (retryFire s1) := by
  rw [failLoopFuel, h]

theorem failLoopFuel_succ_none (fuel : Nat) (s s1 : SyncState)
    (h : onClose s = (s1, none)) : failLoopFuel (fuel + 1) s = [] := by
  rw [failLoopFuel, h]

/-- The general shape of a consecutive-failure run from a mounted state: when
the fuel covers the remaining retries, the scheduled delays are exactly
`closeDelay` at each successive counter value up to `MAX_RECONNECT_ATTEMPTS`. -/
theorem failLoopFuel_eq (fuel : Nat) (s : SyncState) (hm : s.mounted = true)
    (hf : 10 - s.reconnectAttempts ≤ fuel) :
    failLoopFuel fuel s
      = (List.range (10 - s.reconnectAttempts)).map
          (fun i => closeDelay (s.reconnectAttempts + i)) := by
  induction fuel generalizing s with
  | zero =>
    rw [show 10 - s.reconnectAttempts = 0 by omega]
    rfl
  | succ fuel ih =>
    by_cases h10 : s.reconnectAttempts < 10
    · have honc : onClose s = ({ s with socket := none, status := ConnStatus.closed, timerPending := true }, some (closeDelay s.reconnectAttempts)) := by
        unfold onClose MAX_RECONNECT_ATTEMPTS
        rw [if_neg (by simp [hm]), if_pos h10]
      rw [failLoopFuel_succ_some fuel s _ _ honc]
      have hm2 : (retryFire { s with socket := none, status := ConnStatus.closed, timerPending := true }).mounted = true := by
        rw [retryFire_mounted]
        exact hm
      have ha2 : (retryFire { s with socket := none, status := ConnStatus.closed, timerPending := true }).reconnectAttempts = s.reconnectAttempts + 1 :=
        retryFire_attempts _ hm
      rw [ih _ hm2 (by rw [ha2]; omega), ha2]
      rw [show 10 - s.reconnectAttempts = (10 - (s.reconnectAttempts + 1)) + 1 by omega,
        List.range_succ_eq_map]
      rw [List.map_cons, List.map_map]
      congr 1
      apply List.map_congr_left
      intro i _
      simp only [Function.comp_apply, Nat.succ_eq_add_one]
      congr 1
      omega
    · have honc : onClose s = ({ s with socket := none, status := ConnStatus.closed }, none) := by
        unfold onClose MAX_RECONNECT_ATTEMPTS
        rw [if_neg (by simp [hm]), if_neg h10]
      rw [show 10 - s.reconnectAttempts = 0 by omega,
        failLoopFuel_succ_none fuel s _ honc]
      rfl

/-! ### buildInit lemmas -/

theorem buildInit_find_of_absent (l : List (Option RawNote)) (idx : Nat) (acc : NoteMap)
    (key : String) (h : ∀ n : RawNote, some n ∈ l → n.hasId = true → n.key ≠ key) :
    nmFind (buildInit l idx acc) key = nmFind acc key := by
  induction l generalizing idx acc with
  | nil => rfl
  | cons n? rest ih =>
    cases n? with
    | none =>
      rw [buildInit]
      exact ih (idx + 1) acc fun n hn => h n (List.mem_cons_of_mem _ hn)
    | some n =>
      by_cases hid : n.hasId = true
      · rw [buildInit]
        simp only [hid, if_true]
        rw [ih (idx + 1) _ fun n' hn' => h n' (List.mem_cons_of_mem _ hn'),
          nmFind_insert_ne _ _ _ _ (fun e => h n (List.mem_cons_self _ _) hid e.symm)]
      · rw [buildInit]
        simp only [hid, if_false]
        exact ih (idx + 1) acc fun n' hn' => h n' (List.mem_cons_of_mem _ hn')

theorem buildInit_find_unique (l : List (Option RawNote)) (idx : Nat) (acc : NoteMap)
    (i : Nat) (n : RawNote)
    (hi : l.get? i = some (some n)) (hid : n.hasId = true)
    (huniq : ∀ j n', l.get? j = some (some n') → n'.hasId = true → n'.key = n.key → j = i) :
    nmFind (buildInit l idx acc) n.key = some (normalizeInitNote n (idx + i)) := by
  induction l generalizing idx acc i with
  | nil => simp at hi
  | cons n? rest ih =>
    cases i with
    | zero =>
      rw [List.get?_cons_zero, Option.some_inj] at hi
      subst hi
      rw [buildInit]
      simp only [hid, if_true]
      have habs : ∀ n' : RawNote, some n' ∈ rest → n'.hasId = true → n'.key ≠ n.key := by
        intro n' hn' hid' he
        obtain ⟨j, hj⟩ := List.mem_iff_get?.mp hn'
        have := huniq (j + 1) n' (by rw [List.get?_cons_succ]; exact hj) hid' he
        omega
      rw [buildInit_find_of_absent rest (idx + 1) _ n.key habs, nmFind_insert_self,
        Nat.add_zero]
    | succ i' =>
      rw [List.get?_cons_succ] at hi
      have huniq' : ∀ j n', rest.get? j = some (some n') → n'.hasId = true →
          n'.key = n.key → j = i' := by
        intro j n' hj hid' he
        have := huniq (j + 1) n' (by rw [List.get?_cons_succ]; exact hj) hid' he
        omega
      cases n? with
      | none =>
        rw [buildInit, ih (idx + 1) _ i' hi huniq',
          show idx + 1 + i' = idx + (i' + 1) by omega]
      | some m =>
        rw [buildInit, ih (idx + 1) _ i' hi huniq',
          show idx + 1 + i' = idx + (i' + 1) by omega]

/-! ### applyUpdate monotonicity -/

theorem mergeZIndex_ge (bz : Option Int) (z : Int) :
    z ≤ mergeZIndex bz (some z) := by
  cases bz with
  | none => simp [mergeZIndex]
  | some w =>
    by_cases hw : 0 < w
    · rw [mergeZIndex, if_pos hw]
      simp
    · rw [mergeZIndex, if_neg hw]
      simp

/-- `mergeZIndex` in the case shape used by the spec: positive remote values
merge by maximum with the known local value, otherwise the local value (else
1) is kept. -/
theorem mergeZIndex_spec (bz : Option Int) (e : Option Int) :
    mergeZIndex bz e
      = (match bz, e with
          | some z, some v => if 0 < z then max z v else v
          | some z, none => if 0 < z then z else 1
          | none, some v => v
          | none, none => 1) := by
  cases bz with
  | none => cases e with
    | none => rfl
    | some v => rfl
  | some z =>
    cases e with
    | none =>
      by_cases hz : 0 < z
      · rw [mergeZIndex, if_pos hz]
        show max z 0 = if 0 < z then z else 1
        rw [if_pos hz, max_eq_left (by omega)]
      · rw [mergeZIndex, if_neg hz]
        show (1 : Int) = if 0 < z then z else 1
        rw [if_neg hz]
    | some v =>
      by_cases hz : 0 < z
      · rw [mergeZIndex, if_pos hz]
        show max z v = if 0 < z then max z v else v
        rw [if_pos hz]
      · rw [mergeZIndex, if_neg hz]
        show v = if 0 < z then max z v else v
        rw [if_neg hz]

theorem applyUpdate_mono (prev : NoteMap) (n? : Option RawNote) (key : String)
    (old new : Note) (hold : nmFind prev key = some old)
    (hnew : nmFind (applyUpdate prev n?) key = some new) :
    old.zIndex ≤ new.zIndex := by
  cases n? with
  | none =>
    rw [applyUpdate, hold, Option.some_inj] at hnew
    rw [hnew]
  | some n =>
    by_cases hid : n.hasId = true
    · by_cases hk : key = n.key
      · subst hk
        rw [applyUpdate, if_pos hid, nmFind_insert_self, Option.some_inj] at hnew
        rw [← hnew]
        unfold normalizeUpdateNote
        simp only [hold, Option.map_some]
        exact mergeZIndex_ge _ _
      · rw [applyUpdate, if_pos hid, nmFind_insert_ne _ _ _ _ hk, hold,
          Option.some_inj] at hnew
        rw [hnew]
    · rw [applyUpdate, if_neg hid, hold, Option.some_inj] at hnew
      rw [hnew]

/-! ### Queue invariant under local operations -/

theorem upsertNote_queue_le (s : SyncState) (n : Note) (h : s.queue.length ≤ 100) :
    (upsertNote s n).1.queue.length ≤ 100 := by
  by_cases hs : s.socket = some SockState.opened
  · simp only [upsertNote, hs, if_true]
    exact h
  · simp only [upsertNote, hs, if_false]
    exact enqueue_length_le _ _ h

theorem deleteNote_queue_le (s : SyncState) (i : String) (h : s.queue.length ≤ 100) :
    (deleteNote s i).1.queue.length ≤ 100 := by
  by_cases hs : s.socket = some SockState.opened
  · simp only [deleteNote, hs, if_true]
    exact h
  · simp only [deleteNote, hs, if_false]
    exact enqueue_length_le _ _ h

theorem runOps_queue_le (ops : List LocalOp) (s : SyncState)
    (h : s.queue.length ≤ 100) : (runOps s ops).queue.length ≤ 100 := by
  induction ops generalizing s with
  | nil => exact h
  | cons op rest ih =>
    cases op with
    | upsert n => exact ih _ (upsertNote_queue_le s n h)
    | del i => exact ih _ (deleteNote_queue_le s i h)

/-! ### Local-operation state access lemmas -/

theorem upsertNote_notes (s : SyncState) (x : Note) :
    (upsertNote s x).1.notes = nmInsert s.notes x.id (localFinalNote s x) := by
  by_cases hs : s.socket = some SockState.opened
  · rw [upsertNote, if_pos hs]
  · rw [upsertNote, if_neg hs]

theorem deleteNote_notes (s : SyncState) (i : String) :
    (deleteNote s i).1.notes = nmErase s.notes i := by
  by_cases hs : s.socket = some SockState.opened
  · rw [deleteNote, if_pos hs]
  · rw [deleteNote, if_neg hs]

theorem handleUpdateNote_id (notes : NoteMap) (x : Note) :
    (handleUpdateNote notes x).id = x.id := by
  unfold handleUpdateNote
  split <;> rfl

theorem note_update_zIndex_eta (x : Note) (z : Int) (h : z = x.zIndex) :
    ({ x with zIndex := z } : Note) = x := by
  subst h
  rfl

/-! ## Claim theorems -/

/-- C4 counterexample: in a mounted state whose socket is still CONNECTING,
`connect()` is not a no-op — it constructs a new transport session (the
session-construction count changes), contradicting the claim that `connect()`
is a no-op while the current session is in the connecting state. -/
theorem C4_counterexample :
    connectingState.socket = some SockState.connecting ∧
    connect connectingState ≠ connectingState := by
  constructor
  · rfl
  · decide

/-- C4 (amended): `connect()` is a no-op when the current socket is already
OPEN, and when the owning context is unmounted; but from any mounted state
whose socket is not OPEN (in particular one still CONNECTING), `connect()`
constructs a fresh transport session, sets status to connecting and installs
the new CONNECTING socket — it is not a no-op while merely connecting. -/
theorem C4_connect_idempotent_amended :
    (∀ s : SyncState, s.socket = some SockState.opened → connect s = s) ∧
    (∀ s : SyncState, s.mounted = false → connect s = s) ∧
    (∀ s : SyncState, s.mounted = true → ¬ s.socket = some SockState.opened →
      (connect s).sessionCount = s.sessionCount + 1 ∧
      (connect s).status = ConnStatus.connecting ∧
      (connect s).socket = some SockState.connecting) := by
  refine ⟨fun s h => ?_, fun s h => ?_, fun s hm hs => ?_⟩
  · rw [connect, if_pos (Or.inr h)]
  · rw [connect, if_pos (Or.inl h)]
  · rw [connect, if_neg (by simp [hm, hs])]
    exact ⟨rfl, rfl, rfl⟩

/-- C4 witness: the amended theorem applied to the concrete CONNECTING state
of the counterexample. -/
theorem C4_witness :
    connectingState.mounted = true ∧
    ¬ connectingState.socket = some SockState.opened ∧
    (connect connectingState).sessionCount = connectingState.sessionCount + 1 :=
  ⟨rfl, by decide,
    (C4_connect_idempotent_amended.2.2 connectingState rfl (by decide)).1⟩

/-- C7: when a session opens on a mounted context, the status becomes open,
the reconnect-attempt counter resets to 0, every queued frame is sent exactly
once in FIFO order (the sent list is the queue itself, oldest first), and the
queue is empty afterwards. -/
theorem C7_onopen_flush :
    ∀ s : SyncState, s.mounted = true →
      (onOpen s).1.status = ConnStatus.opened ∧
      (onOpen s).1.reconnectAttempts = 0 ∧
      (onOpen s).2 = s.queue ∧
      (onOpen s).1.queue = [] := by
  intro s hm
  have hnm : ¬ s.mounted = false := by simp [hm]
  rw [onOpen, if_neg hnm]
  rw [flushLoop_spec]
  exact ⟨rfl, rfl, by rw [List.nil_append], rfl⟩

/-- C7 witness: a mounted state with a two-frame queue and a stale attempt
counter flushes both frames in order and ends open with an empty queue. -/
theorem C7_witness :
    queuedState.mounted = true ∧
    ((onOpen queuedState).1.status = ConnStatus.opened ∧
      (onOpen queuedState).1.reconnectAttempts = 0 ∧
      (onOpen queuedState).2 = queuedState.queue ∧
      (onOpen queuedState).1.queue = []) :=
  ⟨rfl, C7_onopen_flush queuedState rfl⟩

/-- C8: a malformed `init` (notes field not a sequence) leaves the collection
unchanged; an element that is null or lacks a truthy id is skipped without
invalidating the rest of the batch; and the concrete two-entry `init` with
one id-less entry yields a store holding exactly the one valid entity. -/
theorem C8_init_error_handling :
    (∀ prev : NoteMap, applyInit prev none = prev) ∧
    (∀ (l : List (Option RawNote)) (idx : Nat) (acc : NoteMap),
      buildInit (none :: l) idx acc = buildInit l (idx + 1) acc) ∧
    (∀ (l : List (Option RawNote)) (idx : Nat) (acc : NoteMap) (n : RawNote),
      n.hasId = false → buildInit (some n :: l) idx acc = buildInit l (idx + 1) acc) ∧
    applyInit [("c", sampleNote "c" 2)] (some [some rawNoId, some rawB])
      = [("b", normalizeInitNote rawB 1)] := by
  refine ⟨fun prev => rfl, fun l idx acc => rfl, fun l idx acc n h => ?_, ?_⟩
  · rw [buildInit, if_neg (by simp [h])]
  · rfl

/-- C8 witness: `rawNoId` indeed fails the id test, and the skip equation of
the theorem applies to it at the front of a batch. -/
theorem C8_witness :
    rawNoId.hasId = false ∧
    buildInit [some rawNoId, some rawB] 0 [] = buildInit [some rawB] 1 [] :=
  ⟨rfl, C8_init_error_handling.2.2.1 [some rawB] 0 [] rawNoId rfl⟩

/-- C10: `deleteNote(id)` on an id absent from the collection leaves the
collection unchanged, yet still sends the delete frame when the socket is
open, and enqueues it otherwise — transmission does not depend on local
presence. -/
theorem C10_delete_absent_id :
    ∀ (s : SyncState) (i : String), nmFind s.notes i = none →
      (deleteNote s i).1.notes = s.notes ∧
      (s.socket = some SockState.opened →
        (deleteNote s i).2 = [Frame.delete i] ∧ (deleteNote s i).1.queue = s.queue) ∧
      (¬ s.socket = some SockState.opened →
        (deleteNote s i).2 = [] ∧
        (deleteNote s i).1.queue = enqueue s.queue (Frame.delete i)) := by
  intro s i h
  refine ⟨?_, fun hs => ?_, fun hs => ?_⟩
  · rw [deleteNote_notes, nmErase_of_find_none _ _ h]
  · rw [deleteNote, if_pos hs]
    exact ⟨rfl, rfl⟩
  · rw [deleteNote, if_neg hs]
    exact ⟨rfl, rfl⟩

/-- C10 witness: deleting the absent id `"zz"` from a disconnected one-note
state keeps the collection and enqueues the delete frame. -/
theorem C10_witness :
    nmFind oneNoteState.notes "zz" = none ∧
    (deleteNote oneNoteState "zz").1.notes = oneNoteState.notes :=
  ⟨rfl, (C10_delete_absent_id oneNoteState "zz" rfl).1⟩

/-- C1 counterexample: with note `"a"` stored at zIndex 5, a local
`upsertNote` of `"a"` carrying the positive zIndex 1 persists zIndex 1 — the
entity is present before and after the operation and its zIndex decreased,
refuting the claimed monotonic-max rule on the local upsert path. -/
theorem C1_counterexample :
    (nmFind oneNoteState.notes "a").map (fun o => o.zIndex) = some 5 ∧
    (nmFind (upsertNote oneNoteState (sampleNote "a" 1)).1.notes "a").map
        (fun o => o.zIndex) = some 1 ∧
    ¬ (5 : Int) ≤ 1 := by
  refine ⟨rfl, ?_, by decide⟩
  rfl

/-- C1 (amended): zIndex is non-decreasing across inbound remote update
events (for every id present before and after). On the local `upsertNote`
path the monotonic-max rule does not hold: an incoming non-positive zIndex
keeps the stored value, but an incoming positive zIndex is persisted as-is,
even when lower than the stored one. -/
theorem C1_zIndex_monotonicity_amended :
    (∀ (prev : NoteMap) (n? : Option RawNote) (key : String) (old new : Note),
      nmFind prev key = some old → nmFind (applyUpdate prev n?) key = some new →
      old.zIndex ≤ new.zIndex) ∧
    (∀ (s : SyncState) (n : Note) (old : Note),
      nmFind s.notes n.id = some old → ¬ 0 < n.zIndex →
      (nmFind (upsertNote s n).1.notes n.id).map (fun o => o.zIndex)
        = some old.zIndex) ∧
    (∀ (s : SyncState) (n : Note), 0 < n.zIndex →
      (nmFind (upsertNote s n).1.notes n.id).map (fun o => o.zIndex)
        = some n.zIndex) := by
  refine ⟨applyUpdate_mono, fun s n old hold hnpos => ?_, fun s n hpos => ?_⟩
  · rw [upsertNote_notes, nmFind_insert_self, Option.map_some', Option.some_inj]
    show localFinalZIndex s n = old.zIndex
    rw [localFinalZIndex, if_neg hnpos, hold]
    rfl
  · rw [upsertNote_notes, nmFind_insert_self, Option.map_some', Option.some_inj]
    show localFinalZIndex s n = n.zIndex
    rw [localFinalZIndex, if_pos hpos]

/-- C1 witness: the remote-update part of the amended theorem applied to the
one-note state: an inbound update for `"a"` with no zIndex keeps 5. -/
theorem C1_witness :
    nmFind oneNoteState.notes "a" = some (sampleNote "a" 5) ∧
    nmFind (applyUpdate oneNoteState.notes (some rawA)) "a"
        = some (normalizeUpdateNote oneNoteState.notes rawA) ∧
    (sampleNote "a" 5).zIndex ≤ (normalizeUpdateNote oneNoteState.notes rawA).zIndex :=
  ⟨rfl, rfl,
    C1_zIndex_monotonicity_amended.1 oneNoteState.notes (some rawA) "a"
      (sampleNote "a" 5) (normalizeUpdateNote oneNoteState.notes rawA) rfl rfl⟩

/-- C2: for every accepted inbound update the stored zIndex is: the remote
value (camelCase, else legacy snake_case) when present and positive, merged
by maximum with the locally known zIndex (absent when the id is not stored);
otherwise the locally known zIndex when present, else 1. Consequently the
zIndex of a stored entity never decreases through the inbound update path. -/
theorem C2_update_zIndex_normalization :
    ∀ (prev : NoteMap) (n : RawNote), n.hasId = true →
      ((nmFind (applyUpdate prev (some n)) n.key).map (fun o => o.zIndex)
        = some (match n.backendZIndex, (nmFind prev n.key).map (fun o => o.zIndex) with
            | some z, some e => if 0 < z then max z e else e
            | some z, none => if 0 < z then z else 1
            | none, some e => e
            | none, none => 1)) ∧
      (∀ old new : Note, nmFind prev n.key = some old →
        nmFind (applyUpdate prev (some n)) n.key = some new →
        old.zIndex ≤ new.zIndex) := by
  intro prev n hid
  refine ⟨?_, fun old new hold hnew => applyUpdate_mono prev (some n) n.key old new hold hnew⟩
  rw [applyUpdate, if_pos hid, nmFind_insert_self, Option.map_some', Option.some_inj]
  exact mergeZIndex_spec n.backendZIndex ((nmFind prev n.key).map fun o => o.zIndex)

/-- C2 witness: the normalization applied to the one-note state and the wire
note `rawA` (camelCase zIndex 7 against stored 5): the stored result is
`max 7 5 = 7`. -/
theorem C2_witness :
    rawA.hasId = true ∧
    (nmFind (applyUpdate oneNoteState.notes (some rawA)) rawA.key).map
        (fun o => o.zIndex) = some 7 :=
  ⟨rfl, ((C2_update_zIndex_normalization oneNoteState.notes rawA rfl).1).trans rfl⟩

/-- C3 counterexample: an `init` batch whose single element carries the
camelCase zIndex field with value 0 (and legacy value 7) stores zIndex 0: the
present-but-non-positive field does not fall through to the alternate field
or the positional fallback, and the stored entity violates zIndex ≥ 1. -/
theorem C3_counterexample :
    (nmFind (applyInit [] (some [some rawZeroZ])) "a").map (fun o => o.zIndex)
        = some 0 ∧
    ¬ (nmFind (applyInit [] (some [some rawZeroZ])) "a").map (fun o => o.zIndex)
        = some 7 ∧
    ¬ (nmFind (applyInit [] (some [some rawZeroZ])) "a").map (fun o => o.zIndex)
        = some 1 := by
  refine ⟨rfl, ?_, ?_⟩ <;> decide

/-- C3 (amended): each accepted element of an `init` batch is stored with
zIndex equal to its camelCase zIndex field when that field is present
(regardless of sign), else its legacy snake_case field when present
(regardless of sign), else its 1-based position in the batch; positivity is
never checked, so stored zIndexes below 1 are possible. -/
theorem C3_init_zIndex_amended :
    ∀ (prev : NoteMap) (l : List (Option RawNote)) (i : Nat) (n : RawNote),
      l.get? i = some (some n) → n.hasId = true →
      (∀ j n', l.get? j = some (some n') → n'.hasId = true → n'.key = n.key → j = i) →
      nmFind (applyInit prev (some l)) n.key = some (normalizeInitNote n i) ∧
      (normalizeInitNote n i).zIndex
        = (match n.zIndex, n.z_index with
            | some z, _ => z
            | none, some z => z
            | none, none => (i : Int) + 1) := by
  intro prev l i n hi hid huniq
  constructor
  · show nmFind (buildInit l 0 []) n.key = _
    have := buildInit_find_unique l 0 [] i n hi hid huniq
    rwa [Nat.zero_add] at this
  · show (RawNote.backendZIndex n).getD ((i : Int) + 1) = _
    rw [RawNote.backendZIndex]
    cases n.zIndex with
    | some z => rfl
    | none =>
      cases n.z_index with
      | some z => rfl
      | none => rfl

/-- C3 witness: the amended theorem applied to the batch
`[null, rawZeroZ, rawB]`: element `rawB` at 0-based index 2 has no zIndex in
either spelling and is stored with its 1-based position 3. -/
theorem C3_witness :
    ([none, some rawZeroZ, some rawB] : List (Option RawNote)).get? 2
        = some (some rawB) ∧
    rawB.hasId = true ∧
    nmFind (applyInit [] (some [none, some rawZeroZ, some rawB])) rawB.key
        = some (normalizeInitNote rawB 2) ∧
    (normalizeInitNote rawB 2).zIndex = 3 :=
  by
  have hu : ∀ j n', ([none, some rawZeroZ, some rawB] :
      List (Option RawNote)).get? j = some (some n') → n'.hasId = true →
      n'.key = rawB.key → j = 2 := by
    intro j n' hj hid' he
    rcases j with _ | _ | _ | j
    · rw [List.get?_cons_zero] at hj
      simp at hj
    · rw [List.get?_cons_succ, List.get?_cons_zero, Option.some_inj,
        Option.some_inj] at hj
      subst hj
      exact absurd he (by decide)
    · rfl
    · rw [List.get?_cons_succ, List.get?_cons_succ, List.get?_cons_succ] at hj
      simp at hj
  have h := C3_init_zIndex_amended [] [none, some rawZeroZ, some rawB] 2 rawB rfl rfl hu
  exact ⟨rfl, rfl, h.1, h.2.trans (by decide)⟩

/-- C5: starting from a mounted context with the attempt counter at 0, the
delays scheduled over any run of consecutive session failures are exactly
`min(1000·2^attempts, 30000)`: 1000, 2000, 4000, 8000, 16000, then 30000 for
every later attempt, and exactly ten retries are ever scheduled (no 11th
automatic attempt), for every fuel bound covering the run. `onClose` never
moves the counter (it moves only when a scheduled retry fires), and once the
counter has reached 10 a close schedules no further retry. -/
theorem C5_reconnect_backoff :
    (∀ s : SyncState, s.mounted = true → s.reconnectAttempts = 0 →
      ∀ fuel : Nat, 10 ≤ fuel →
        failLoopFuel fuel s
          = [1000, 2000, 4000, 8000, 16000, 30000, 30000, 30000, 30000, 30000]) ∧
    (∀ s : SyncState, (onClose s).1.reconnectAttempts = s.reconnectAttempts) ∧
    (∀ s : SyncState, 10 ≤ s.reconnectAttempts → (onClose s).2 = none) := by
  refine ⟨fun s hm h0 fuel hf => ?_, fun s => ?_, fun s h => ?_⟩
  · rw [failLoopFuel_eq fuel s hm (by omega), h0]
    decide
  · rw [onClose]
    by_cases hm : s.mounted = false
    · rw [if_pos hm]
    · rw [if_neg hm]
      by_cases h10 : s.reconnectAttempts < MAX_RECONNECT_ATTEMPTS
      · rw [if_pos h10]
      · rw [if_neg h10]
  · rw [onClose]
    by_cases hm : s.mounted = false
    · rw [if_pos hm]
    · rw [if_neg hm, if_neg (by unfold MAX_RECONNECT_ATTEMPTS; omega)]

/-- C5 witness: ten consecutive failures from the fresh state yield exactly
the claimed delay sequence. -/
theorem C5_witness :
    baseState.mounted = true ∧ baseState.reconnectAttempts = 0 ∧
    failLoopFuel 10 baseState
      = [1000, 2000, 4000, 8000, 16000, 30000, 30000, 30000, 30000, 30000] :=
  ⟨rfl, rfl, C5_reconnect_backoff.1 baseState rfl rfl 10 (by omega)⟩

/-- C6: over any sequence of local upserts/deletes the outbound queue never
exceeds 100 entries; an enqueue onto a full queue evicts exactly the oldest
entry before admitting the newest; from empty, any enqueue sequence leaves
exactly the most recent (at most 100) intents in FIFO order; and while no
session is open both `upsertNote` and `deleteNote` enqueue (and send
nothing). -/
theorem C6_queue_bound :
    (∀ (s : SyncState) (ops : List LocalOp), s.queue.length ≤ 100 →
      (runOps s ops).queue.length ≤ 100) ∧
    (∀ (q : List Frame) (m : Frame), q.length = 100 → enqueue q m = q.tail ++ [m]) ∧
    (∀ msgs : List Frame, msgs.foldl enqueue [] = msgs.drop (msgs.length - 100)) ∧
    (∀ (s : SyncState) (n : Note), ¬ s.socket = some SockState.opened →
      (upsertNote s n).1.queue = enqueue s.queue (Frame.update (localFinalNote s n)) ∧
      (upsertNote s n).2 = []) ∧
    (∀ (s : SyncState) (i : String), ¬ s.socket = some SockState.opened →
      (deleteNote s i).1.queue = enqueue s.queue (Frame.delete i) ∧
      (deleteNote s i).2 = []) := by
  refine ⟨fun s ops h => runOps_queue_le ops s h, enqueue_full, foldl_enqueue_drop,
    fun s n hs => ?_, fun s i hs => ?_⟩
  · rw [upsertNote, if_neg hs]
    exact ⟨rfl, rfl⟩
  · rw [deleteNote, if_neg hs]
    exact ⟨rfl, rfl⟩

/-- C6 witness: the bound applied to a concrete disconnected run of one
upsert and one delete from the empty queue. -/
theorem C6_witness :
    baseState.queue.length ≤ 100 ∧
    (runOps baseState [LocalOp.upsert (sampleNote "a" 1), LocalOp.del "a"]).queue.length
      ≤ 100 :=
  ⟨by decide,
    C6_queue_bound.1 baseState [LocalOp.upsert (sampleNote "a" 1), LocalOp.del "a"]
      (by decide)⟩

/-- C9: for an entity present in the collection with its stored zIndex, the
bring-to-front policy recomputes the maximum over the current snapshot: an
entity already at the maximum is left unchanged, an entity below it is given
exactly max + 1, and the note produced by the policy is what `upsertNote`
persists for that id (the local merge does not alter it). -/
theorem C9_bring_to_front :
    ∀ (s : SyncState) (n stored : Note),
      nmFind s.notes n.id = some stored → stored.zIndex = n.zIndex →
      (n.zIndex = maxZIndex s.notes → handleUpdateNote s.notes n = n) ∧
      (n.zIndex ≠ maxZIndex s.notes →
        (handleUpdateNote s.notes n).zIndex = maxZIndex s.notes + 1) ∧
      nmFind (upsertNote s (handleUpdateNote s.notes n)).1.notes n.id
        = some (handleUpdateNote s.notes n) := by
  intro s n stored hfind hz
  have hle : n.zIndex ≤ maxZIndex s.notes := by
    have := zIndex_le_maxZIndex s.notes n.id stored hfind
    omega
  refine ⟨fun he => ?_, fun hne => ?_, ?_⟩
  · rw [handleUpdateNote, if_neg (by omega)]
  · rw [handleUpdateNote, if_pos (by omega)]
  · have hid' : (handleUpdateNote s.notes n).id = n.id := handleUpdateNote_id s.notes n
    have hfinal : localFinalNote s (handleUpdateNote s.notes n)
        = handleUpdateNote s.notes n := by
      by_cases hlt : n.zIndex < maxZIndex s.notes
      · rw [handleUpdateNote, if_pos hlt]
        have hpos : 0 < ({ n with zIndex := maxZIndex s.notes + 1 } : Note).zIndex := by
          show 0 < maxZIndex s.notes + 1
          have := maxZIndex_nonneg s.notes
          omega
        rw [localFinalNote, localFinalZIndex, if_pos hpos]
      · rw [handleUpdateNote, if_neg hlt]
        by_cases hpos : 0 < n.zIndex
        · rw [localFinalNote, localFinalZIndex, if_pos hpos]
        · rw [localFinalNote, localFinalZIndex, if_neg hpos, hfind]
          exact note_update_zIndex_eta _ _ hz
    rw [upsertNote_notes, hid', hfinal, nmFind_insert_self]

/-- C9 witness: in the two-note state (`"a"` at 3, `"b"` at 5) the entity
`"a"` is below the maximum, so bring-to-front hands `upsertNote` a note with
zIndex `max + 1 = 6`. -/
theorem C9_witness :
    nmFind twoNoteState.notes "a" = some (sampleNote "a" 3) ∧
    ((sampleNote "a" 3).zIndex ≠ maxZIndex twoNoteState.notes →
      (handleUpdateNote twoNoteState.notes (sampleNote "a" 3)).zIndex
        = maxZIndex twoNoteState.notes + 1) :=
  ⟨rfl,
    (C9_bring_to_front twoNoteState (sampleNote "a" 3) (sampleNote "a" 3) rfl rfl).2.1⟩

end PlannerSync
